import Mathlib

/-!
# Verification of the CloudBot beans economy plugin

A shallow embedding of `plugins/beans.py`: the bean ledger (`beans` table),
the money-movement primitive `transfer_beans`, the slot-machine minigame with
its cooldown state machine, and the trivia/betting market.

Conventions used throughout:

* The SQL `beans` table (primary key `nick`) is modelled as an association
  list `List (String × Int)`.  Because `nick` is a primary key the table never
  holds two rows with the same key, so the SQL `UPDATE ... WHERE nick = k`
  (which touches the unique row) is modelled as an update of the first
  occurrence of `k`.
* Python's `str.lower()` on the ASCII nicks used by the bot is modelled as
  per-character lowercasing (`Char.toLower`).
* Python `int` is modelled as `Int`; Python `float` arithmetic (used by the
  slot machine's bet multiplier and the proportional bet payouts) is modelled
  exactly as IEEE-754 binary64 round-to-nearest-even arithmetic over
  executable rationals (see `Frac` and `roundB64`), ignoring overflow and
  subnormals, which are far outside the magnitudes the plugin manipulates.
-/

namespace Beans

/-- Python `str.lower()` for the ASCII nicks the bot handles:
per-character lowercase. -/
def lc (s : String) : String := ⟨s.data.map Char.toLower⟩

/-- The `beans` table: one row per (lowercased) nick with a bean balance. -/
abbrev Ledger := List (String × Int)

/-- The row with the given key (the primary key makes it unique, so the first
occurrence is the row). -/
def rowLookup : List (String × Int) → String → Option Int
  | [], _ => none
  | (k, v) :: t, n => if k = n then some v else rowLookup t n

/-- `get_beans` from beans.py: lowercase the nick, read the row, default 0. -/
def get_beans (nick : String) (l : Ledger) : Int :=
  (rowLookup l (lc nick)).getD 0

/-- Update the (unique) row with the given key, or insert a fresh row. -/
def rowSet : List (String × Int) → String → Int → List (String × Int)
  | [], n, a => [(n, a)]
  | (k, v) :: t, n, a => if k = n then (n, a) :: t else (k, v) :: rowSet t n a

/-- `set_beans` from beans.py: lowercase the nick, then update-or-insert. -/
def set_beans (nick : String) (amount : Int) (l : Ledger) : Ledger :=
  rowSet l (lc nick) amount

/-- `transfer_beans` from beans.py: lowercase both nicks, read both balances,
fail if the sender's balance is below `amount`, otherwise write the debited
sender balance and then the credited recipient balance. -/
def transfer_beans (from_nick to_nick : String) (amount : Int) (l : Ledger) :
    Bool × Ledger :=
  let fl := lc from_nick
  let tl := lc to_nick
  let from_beans := get_beans fl l
  let to_beans := get_beans tl l
  if from_beans < amount then (false, l)
  else (true, set_beans tl (to_beans + amount) (set_beans fl (from_beans - amount) l))

/-- `add_beans` from beans.py (admin mint). -/
def add_beans (nick : String) (amount : Int) (l : Ledger) : Ledger :=
  set_beans nick (get_beans nick l + amount) l

/-- `get_total_beans` from beans.py: `SUM(beans)` over the table (0 when
empty). -/
def get_total_beans (l : Ledger) : Int :=
  (l.map Prod.snd).sum

/-! ## Basic ledger lemmas -/

theorem char_toLower_idem (c : Char) : c.toLower.toLower = c.toLower := by
  simp only [Char.toLower]
  by_cases h : c.toNat ≥ 65 ∧ c.toNat ≤ 90
  · rw [if_pos h]
    have hv : Nat.isValidChar (c.toNat + 32) := Or.inl (by omega)
    have hval : (Char.ofNat (c.toNat + 32)).toNat = c.toNat + 32 := by
      rw [Char.ofNat, dif_pos hv]
      rfl
    rw [hval, if_neg (by omega)]
  · rw [if_neg h, if_neg h]

theorem lc_idem (s : String) : lc (lc s) = lc s := by
  simp [lc, List.map_map, Function.comp_def, char_toLower_idem]

theorem get_beans_lc (n : String) (l : Ledger) : get_beans (lc n) l = get_beans n l := by
  simp [get_beans, lc_idem]

theorem set_beans_lc (n : String) (a : Int) (l : Ledger) :
    set_beans (lc n) a l = set_beans n a l := by
  simp [set_beans, lc_idem]

theorem rowLookup_rowSet_self (l : List (String × Int)) (k : String) (a : Int) :
    rowLookup (rowSet l k a) k = some a := by
  induction l with
  | nil => simp [rowLookup, rowSet]
  | cons h t ih =>
    obtain ⟨k', v⟩ := h
    by_cases hk : k' = k
    · simp [rowSet, hk, rowLookup]
    · simp [rowSet, hk, rowLookup, ih]

theorem rowLookup_rowSet_other (l : List (String × Int)) (k k' : String) (a : Int)
    (h : k' ≠ k) : rowLookup (rowSet l k a) k' = rowLookup l k' := by
  have hk'' : k ≠ k' := Ne.symm h
  induction l with
  | nil => simp [rowLookup, rowSet, hk'']
  | cons hd t ih =>
    obtain ⟨k₀, v⟩ := hd
    by_cases hk : k₀ = k
    · subst hk
      simp [rowSet, rowLookup, hk'']
    · simp [rowSet, hk, rowLookup, ih]

theorem total_rowSet (l : List (String × Int)) (k : String) (a : Int) :
    get_total_beans (rowSet l k a) =
      get_total_beans l + a - (rowLookup l k).getD 0 := by
  induction l with
  | nil => simp [get_total_beans, rowSet, rowLookup]
  | cons hd t ih =>
    obtain ⟨k₀, v⟩ := hd
    by_cases hk : k₀ = k
    · subst hk
      simp [rowSet, get_total_beans, rowLookup]
      omega
    · simp only [rowSet, if_neg hk, get_total_beans, List.map_cons, List.sum_cons,
        rowLookup, if_neg hk] at ih ⊢
      omega

theorem get_beans_set_beans_self (n : String) (a : Int) (l : Ledger) :
    get_beans n (set_beans n a l) = a := by
  simp [get_beans, set_beans, rowLookup_rowSet_self]

theorem get_beans_set_beans_other (n m : String) (a : Int) (l : Ledger)
    (h : lc m ≠ lc n) : get_beans m (set_beans n a l) = get_beans m l := by
  simp [get_beans, set_beans, rowLookup_rowSet_other _ _ _ _ h]

theorem total_set_beans (n : String) (a : Int) (l : Ledger) :
    get_total_beans (set_beans n a l) = get_total_beans l + a - get_beans n l := by
  simp [set_beans, get_beans, total_rowSet]

/-! ## Behaviour of `transfer_beans` -/

theorem transfer_beans_fail (f t : String) (a : Int) (l : Ledger)
    (h : get_beans f l < a) : transfer_beans f t a l = (false, l) := by
  simp only [transfer_beans, get_beans_lc]
  rw [if_pos h]

theorem transfer_beans_succ (f t : String) (a : Int) (l : Ledger)
    (h : a ≤ get_beans f l) :
    transfer_beans f t a l =
      (true, set_beans t (get_beans t l + a) (set_beans f (get_beans f l - a) l)) := by
  simp only [transfer_beans, get_beans_lc, set_beans_lc]
  rw [if_neg (not_lt.mpr h)]

/-- A single `transfer_beans` call between accounts with distinct lowercased
nicks never changes the total number of beans in circulation. -/
theorem total_transfer_beans (f t : String) (a : Int) (l : Ledger)
    (hne : lc f ≠ lc t) :
    get_total_beans (transfer_beans f t a l).2 = get_total_beans l := by
  by_cases h : get_beans f l < a
  · rw [transfer_beans_fail f t a l h]
  · rw [transfer_beans_succ f t a l (not_lt.mp h)]
    have hto : get_beans t (set_beans f (get_beans f l - a) l) = get_beans t l :=
      get_beans_set_beans_other _ _ _ _ (Ne.symm hne)
    simp only [total_set_beans, hto]
    omega

/-- A sequence of raw `transfer_beans` calls, threading the ledger through
(drops the returned booleans). -/
def runTransfers (calls : List (String × String × Int)) (l : Ledger) : Ledger :=
  calls.foldl (fun acc c => (transfer_beans c.1 c.2.1 c.2.2 acc).2) l

theorem total_runTransfers (calls : List (String × String × Int)) (l : Ledger)
    (h : ∀ c ∈ calls, lc c.1 ≠ lc c.2.1) :
    get_total_beans (runTransfers calls l) = get_total_beans l := by
  induction calls generalizing l with
  | nil => rfl
  | cons c rest ih =>
    have hc := h c (List.mem_cons_self c rest)
    have hrest : ∀ c' ∈ rest, lc c'.1 ≠ lc c'.2.1 := fun c' hc' =>
      h c' (List.mem_cons_of_mem c hc')
    show get_total_beans (runTransfers rest (transfer_beans c.1 c.2.1 c.2.2 l).2) = _
    rw [ih _ hrest, total_transfer_beans _ _ _ _ hc]

/-! ## Claim theorems about `transfer_beans` -/

/-- C1 (counterexample): the claim says `transfer_beans` returns `false`
with no mutation whenever the sender and the recipient are the same account
(case-insensitively), and whenever `amount <= 0`.  The source only checks
`from_beans < amount`: a self-transfer of 5 from a balance of 5 returns `true`
and leaves the account at 10, and a zero-amount transfer returns `true`. -/
theorem transfer_beans_self_or_zero_succeeds :
    transfer_beans "Alice" "alice" 5 [("alice", 5)] = (true, [("alice", 10)]) ∧
    (transfer_beans "a" "b" 0 []).1 = true := by decide

/-- C1 (amended): `transfer_beans(from, to, amount)` fails (returns `false`
with the ledger untouched) exactly when the sender's balance is below
`amount`; there is no positivity or distinct-accounts precondition.
Otherwise it returns `true` after writing sender := sender − amount and then
recipient := (recipient balance read before the debit) + amount. -/
theorem transfer_beans_characterization (f t : String) (a : Int) (l : Ledger) :
    (get_beans f l < a → transfer_beans f t a l = (false, l)) ∧
    (a ≤ get_beans f l →
      transfer_beans f t a l =
        (true, set_beans t (get_beans t l + a) (set_beans f (get_beans f l - a) l))) :=
  ⟨transfer_beans_fail f t a l, transfer_beans_succ f t a l⟩

theorem transfer_beans_characterization_witness :
    transfer_beans "Al" "bob" 2 [("al", 5)] =
      (true, set_beans "bob" (get_beans "bob" [("al", 5)] + 2)
        (set_beans "Al" (get_beans "Al" [("al", 5)] - 2) [("al", 5)])) :=
  (transfer_beans_characterization "Al" "bob" 2 [("al", 5)]).2 (by decide)

/-- C2 (counterexample): a self-transfer (sender = recipient, sufficient
balance) increases the total in circulation — the recipient's balance is read
before the sender's debit is written, so the credit overwrites the debit.
Starting from a single account holding 5, one `transfer_beans` call brings
the circulation from 5 to 10. -/
theorem self_transfer_breaks_conservation :
    get_total_beans [(("alice" : String), (5 : Int))] = 5 ∧
    get_total_beans (transfer_beans "alice" "alice" 5 [("alice", 5)]).2 = 10 := by
  decide

/-- C2 (amended): for any starting ledger and any sequence of `transfer_beans`
calls in which every call's sender and recipient differ case-insensitively
(failing calls and arbitrary amounts allowed), the total in circulation is
unchanged.  (Self-transfers are excluded: as the counterexample shows, a
successful self-transfer mints the transferred amount.) -/
theorem conservation_distinct_transfers (calls : List (String × String × Int))
    (l : Ledger) (h : ∀ c ∈ calls, lc c.1 ≠ lc c.2.1) :
    get_total_beans (runTransfers calls l) = get_total_beans l :=
  total_runTransfers calls l h

theorem conservation_distinct_transfers_witness :
    get_total_beans
      (runTransfers [("a", "b", 3), ("b", "c", 2), ("c", "a", -1), ("a", "c", 99)]
        [("a", 5), ("b", 1)]) =
    get_total_beans [(("a" : String), (5 : Int)), ("b", 1)] :=
  conservation_distinct_transfers
    [("a", "b", 3), ("b", "c", 2), ("c", "a", -1), ("a", "c", 99)]
    [("a", 5), ("b", 1)] (by decide)

/-- C8: a transfer whose sender balance is below the amount returns `false`
and leaves both the sender's and the recipient's balances exactly as before
(the whole ledger is returned untouched). -/
theorem failing_transfer_preserves_balances (f t : String) (a : Int) (l : Ledger)
    (hne : lc f ≠ lc t) (h : get_beans f l < a) :
    (transfer_beans f t a l).1 = false ∧
    get_beans f (transfer_beans f t a l).2 = get_beans f l ∧
    get_beans t (transfer_beans f t a l).2 = get_beans t l := by
  rw [transfer_beans_fail f t a l h]
  exact ⟨rfl, rfl, rfl⟩

theorem failing_transfer_preserves_balances_witness :
    (transfer_beans "poor" "rich" 10 [("poor", 3), ("rich", 50)]).1 = false ∧
    get_beans "poor" (transfer_beans "poor" "rich" 10 [("poor", 3), ("rich", 50)]).2 =
      get_beans "poor" [("poor", 3), ("rich", 50)] ∧
    get_beans "rich" (transfer_beans "poor" "rich" 10 [("poor", 3), ("rich", 50)]).2 =
      get_beans "rich" [("poor", 3), ("rich", 50)] :=
  failing_transfer_preserves_balances "poor" "rich" 10 [("poor", 3), ("rich", 50)]
    (by decide) (by decide)

/-- C10: a self-transfer of `n` with `0 < n ≤ balance(u)` returns `true` and
increases `u`'s balance — and hence the total circulation — by exactly `n`:
the recipient balance is read before the sender's debit is written, so the
later credit overwrites the debit. -/
theorem self_transfer_credits_amount (u : String) (n : Int) (l : Ledger)
    (h1 : 0 < n) (h2 : n ≤ get_beans u l) :
    (transfer_beans u u n l).1 = true ∧
    get_beans u (transfer_beans u u n l).2 = get_beans u l + n ∧
    get_total_beans (transfer_beans u u n l).2 = get_total_beans l + n := by
  rw [transfer_beans_succ u u n l h2]
  refine ⟨rfl, ?_, ?_⟩
  · simp [get_beans_set_beans_self]
  · simp only [total_set_beans, get_beans_set_beans_self]
    omega

theorem self_transfer_credits_amount_witness :
    (transfer_beans "u" "u" 4 [("u", 9)]).1 = true ∧
    get_beans "u" (transfer_beans "u" "u" 4 [("u", 9)]).2 =
      get_beans "u" [("u", 9)] + 4 ∧
    get_total_beans (transfer_beans "u" "u" 4 [("u", 9)]).2 =
      get_total_beans [(("u" : String), (9 : Int))] + 4 :=
  self_transfer_credits_amount "u" 4 [("u", 9)] (by decide) (by decide)

/-! ## Python float arithmetic

beans.py computes bet multipliers, slot prizes, cooldown durations and
proportional bet payouts with Python `float`s (IEEE-754 binary64).  We model a
binary64 value by the rational number it denotes, and each arithmetic
operation as the exact rational operation followed by rounding to 53
significant bits with round-to-nearest, ties-to-even — exactly IEEE
semantics in the range the plugin works in (overflow and subnormals are
unreachable at these magnitudes and are not modelled; conversion of the
plugin's `int`s to `float` is exact below 2^53).  Rationals are represented
by explicit numerator/denominator pairs (`Frac`, denominator kept positive)
so that every operation is executable by kernel reduction.  Python `round`
(banker's rounding) is `pythonRound` below. -/

/-- A rational number as an (unnormalized) fraction with positive
denominator. -/
structure Frac where
  num : Int
  den : Int
  deriving DecidableEq, Repr

/-- Embed an integer. -/
def ofInt (n : Int) : Frac := ⟨n, 1⟩

/-- Build a fraction, flipping signs so the denominator stays positive. -/
def mkF (n d : Int) : Frac := if d < 0 then ⟨-n, -d⟩ else ⟨n, d⟩

def addF (a b : Frac) : Frac := ⟨a.num * b.den + b.num * a.den, a.den * b.den⟩

def mulF (a b : Frac) : Frac := ⟨a.num * b.num, a.den * b.den⟩

/-- Exact division of fractions. -/
def divF (a b : Frac) : Frac := mkF (a.num * b.den) (a.den * b.num)

/-- `a < b` as rationals (denominators are positive). -/
def ltF (a b : Frac) : Prop := a.num * b.den < b.num * a.den

instance (a b : Frac) : Decidable (ltF a b) := by unfold ltF; infer_instance

/-- `max` on fractions (used by the slot machine's cooldown multiplier). -/
def maxF (a b : Frac) : Frac := if ltF a b then b else a

/-- `min` on fractions. -/
def minF (a b : Frac) : Frac := if ltF a b then a else b

/-- `math.floor` of a fraction. -/
def floorF (a : Frac) : Int := Int.fdiv a.num a.den

/-- `math.ceil` of a fraction. -/
def ceilF (a : Frac) : Int := -(Int.fdiv (-a.num) a.den)

/-- Round a fraction to the nearest integer, ties to even (Python `round`). -/
def pythonRound (q : Frac) : Int :=
  let f := floorF q
  let r := q.num - f * q.den
  if 2 * r < q.den then f
  else if q.den < 2 * r then f + 1
  else if f % 2 = 0 then f else f + 1

/-- Fuel-driven binary logarithm (`Nat.log2` is defined by well-founded
recursion, which the kernel cannot reduce; with fuel `n` this computes
`⌊log₂ n⌋` for every `n ≥ 1`). -/
def log2F : Nat → Nat → Nat
  | 0, _ => 0
  | fuel + 1, n => if n ≤ 1 then 0 else 1 + log2F fuel (n / 2)

/-- `⌊log₂ n⌋` (0 at 0). -/
def ilog2 (n : Nat) : Nat := log2F n n

/-- `2 ^ k` as a fraction, for `k : Int`. -/
def pow2 (k : Int) : Frac :=
  if 0 ≤ k then ⟨Int.ofNat (2 ^ k.toNat), 1⟩ else ⟨1, Int.ofNat (2 ^ (-k).toNat)⟩

/-- Binade exponent used for binary64 rounding of a positive fraction `q`:
`k` with `q * 2^k ∈ [2^52, 2^53)`.  The first guess from the integer
logarithms of numerator and denominator is off by at most one binade and is
corrected by comparison. -/
def fexp (q : Frac) : Int :=
  let k0 : Int := 52 + (ilog2 q.den.natAbs : Int) - (ilog2 q.num.natAbs : Int)
  if ltF (mulF q (pow2 k0)) (ofInt (2 ^ 52)) then k0 + 1
  else if ltF (mulF q (pow2 k0)) (ofInt (2 ^ 53)) then k0
  else k0 - 1

/-- Round a positive fraction to the nearest binary64 value (ties to even):
scale into `[2^52, 2^53)`, round the scaled value to an integer significand,
and scale back. -/
def roundPos (q : Frac) : Frac :=
  let k := fexp q
  divF (ofInt (pythonRound (mulF q (pow2 k)))) (pow2 k)

/-- Round a fraction to the rational denoted by the nearest IEEE binary64
value (ties to even). -/
def roundB64 (q : Frac) : Frac :=
  if 0 < q.num then roundPos q
  else if q.num < 0 then
    let p := roundPos ⟨-q.num, q.den⟩
    ⟨-p.num, p.den⟩
  else ofInt 0

/-- Python float division (`a / b` on floats; `int / int` true division). -/
def fdiv (a b : Frac) : Frac := roundB64 (divF a b)

/-- Python float multiplication. -/
def fmul (a b : Frac) : Frac := roundB64 (mulF a b)

/-! ## The slot machine (`slots` in beans.py)

The `.slots` handler is modelled as a function of the parsed bet, the
caller's nick, the current time (`math.floor(time())`), the caller's entry in
`slot_cooldown_cache` (if any), the ledger, and the six RNG draws
(`random.choice` from the 8-element emoji list, so two lists over `Fin 8`).
It returns the outcome, the caller's new cache entry, and the new ledger.
String reply texts are abstracted into the `SlotsResult` constructors, which
carry the numbers interpolated into the corresponding messages. -/

/-- One user's entry in `slot_cooldown_cache`. -/
structure CooldownEntry where
  remaining_plays : Int
  cooldown_until : Int
  accumulated_bet : Int
  deriving DecidableEq, Repr

/-- The observable outcome of one `.slots` call. -/
inductive SlotsResult where
  /-- "Minimum bet is {min_bet} beans." -/
  | belowMin (minBet : Int)
  /-- "You need to wait {wait} seconds before playing again. Increase your
  bet to {accBet} to play now." -/
  | cooldownActive (wait accBet : Int)
  /-- "You entered a cooldown! You can play again in {cooldownTime} seconds.
  Increase your bet to {accBet} beans to play now." -/
  | cooldownImposed (cooldownTime accBet : Int)
  /-- "You don't have enough beans to bet {bet}." -/
  | notEnoughUser (userBeans : Int)
  /-- "The bot doesn't have enough beans to pay out a potential prize of
  {maxPrize} beans." -/
  | notEnoughHouse (maxPrize : Int)
  /-- The debit transfer itself failed. -/
  | cantPlay
  /-- 3 matches, house could not pay (bet already debited). -/
  | jackpotUnpaid
  /-- 3 matches: "JACKPOT! You won {prize} beans!" -/
  | jackpot (prize : Int)
  /-- 2 matches, house could not pay (bet already debited). -/
  | twoMatchUnpaid
  /-- 2 matches: "You won {prize} beans!" -/
  | twoMatch (prize : Int)
  /-- 1 match: bet lost. -/
  | oneMatch
  /-- 0 matches: bet lost. -/
  | noMatch
  deriving DecidableEq, Repr

/-- The dynamic minimum bet: 3 by default, 2 once the bot holds more than
0.3 of the circulation, 1 above 0.5 (market share compared as Python floats;
the literals 0.3 and 0.5 denote their binary64 values). -/
def min_bet_of (connNick : String) (l : Ledger) : Int :=
  let total_beans := get_total_beans l
  let bot_beans := get_beans connNick l
  let share : Frac :=
    if 0 < total_beans then fdiv (ofInt bot_beans) (ofInt total_beans) else ofInt 0
  if ltF (roundB64 (mkF 1 2)) share then 1
  else if ltF (roundB64 (mkF 3 10)) share then 2
  else 3

/-- What the cooldown bookkeeping of `slots` decides for one call. -/
inductive CooldownStep where
  /-- Still cooling down and the bet does not reach `accumulated_bet`:
  reject, cache left at `entry`. -/
  | reject (wait accBet : Int) (entry : CooldownEntry)
  /-- Plays exhausted and the bet does not bypass: impose a new cooldown
  (`entry` is the new cache entry) and reject this play. -/
  | impose (cooldownTime : Int) (entry : CooldownEntry)
  /-- The play goes ahead; `entry` is the already-updated cache entry and
  `wait` the (possibly negative) remaining cooldown to `now`. -/
  | proceed (entry : CooldownEntry) (wait : Int)
  deriving DecidableEq, Repr

/-- The cooldown state machine of `slots`: default-initialize the cache
entry, reject a below-`accumulated_bet` play during a cooldown, clear
`accumulated_bet` once the cooldown has expired, then consume a play,
bypass, or impose a new cooldown (`15 * 1.5 * accumulated_bet / min_bet`
seconds, Python-rounded; `accumulated_bet` doubles). -/
def cooldown_machine (min_bet bet now : Int) (entry0 : Option CooldownEntry) :
    CooldownStep :=
  let e := entry0.getD ⟨3, 0, min_bet⟩
  let wait := e.cooldown_until - now
  if 0 < wait ∧ bet < e.accumulated_bet then .reject wait e.accumulated_bet e
  else
    let e := if wait ≤ 0 then { e with accumulated_bet := min_bet } else e
    if 0 < e.remaining_plays then
      .proceed { e with remaining_plays := e.remaining_plays - 1 } wait
    else if e.accumulated_bet < bet ∧ 0 < wait then
      .proceed ⟨2, e.cooldown_until, e.accumulated_bet⟩ wait
    else
      let ct := pythonRound
        (fdiv (fmul (fmul (ofInt 15) (mkF 3 2)) (ofInt e.accumulated_bet)) (ofInt min_bet))
      .impose ct ⟨3, now + ct, e.accumulated_bet * 2⟩

/-- `sum(e == a for e, a in zip(expected_slots, actual_slots))`. -/
def countMatches : List (Fin 8) → List (Fin 8) → Nat
  | e :: es, a :: more => (if e = a then 1 else 0) + countMatches es more
  | _, _ => 0

/-- The playing phase of `slots`, after the cooldown bookkeeping: check the
user's balance against the bet and the house balance (read before the play)
against the bet-scaled maximum prize, debit the bet, draw, and pay out. -/
def slots_play (nick connNick : String) (bet : Int) (bm : Frac) (bot_beans : Int)
    (l : Ledger) (expected actual : List (Fin 8)) : SlotsResult × Ledger :=
  let user_beans := get_beans nick l
  if user_beans < bet then (.notEnoughUser user_beans, l)
  else
    let max_prize := ceilF (fmul bm (ofInt 100))
    if bot_beans < max_prize then (.notEnoughHouse max_prize, l)
    else
      let tr := transfer_beans nick connNick bet l
      if tr.1 = false then (.cantPlay, tr.2)
      else
        let l1 := tr.2
        let nMatches := countMatches expected actual
        if nMatches = 3 then
          let tr2 := transfer_beans connNick nick max_prize l1
          if tr2.1 = false then (.jackpotUnpaid, tr2.2)
          else (.jackpot max_prize, tr2.2)
        else if nMatches = 2 then
          let prize := ceilF (fmul bm (fdiv (ofInt max_prize) (ofInt 2)))
          let tr2 := transfer_beans connNick nick prize l1
          if tr2.1 = false then (.twoMatchUnpaid, tr2.2)
          else (.twoMatch prize, tr2.2)
        else if nMatches = 1 then (.oneMatch, l1)
        else (.noMatch, l1)

/-- The `.slots` command handler. -/
def slots (nick connNick : String) (bet now : Int) (entry0 : Option CooldownEntry)
    (l : Ledger) (expected actual : List (Fin 8)) :
    SlotsResult × Option CooldownEntry × Ledger :=
  let bot_beans := get_beans connNick l
  let min_bet := min_bet_of connNick l
  if bet < min_bet then (.belowMin min_bet, entry0, l)
  else
    match cooldown_machine min_bet bet now entry0 with
    | .reject wait accBet e => (.cooldownActive wait accBet, some e, l)
    | .impose ct e => (.cooldownImposed ct e.accumulated_bet, some e, l)
    | .proceed e wait =>
      let bm :=
        if 0 < wait then
          maxF (minF (fdiv (ofInt bet) (ofInt min_bet))
                     (fdiv (ofInt bet) (ofInt e.accumulated_bet))) (ofInt 1)
        else fdiv (ofInt bet) (ofInt min_bet)
      let r := slots_play nick connNick bet bm bot_beans l expected actual
      (r.1, some e, r.2)

/-! ## Trivia questions and bets -/

/-- A row of the `trivia` table (timestamps, which only order listings, are
dropped).  `creator` and `answer` are stored lowercased. -/
structure Trivia where
  id : Int
  creator : String
  question : String
  answer : String
  prize : Int
  deriving DecidableEq, Repr

/-- A row of the `trivia_bets` table (primary key `(creator, trivia_id)`;
timestamps dropped).  `creator` and `winner` are stored lowercased. -/
structure Bet where
  creator : String
  trivia_id : Int
  bet_amount : Int
  winner : String
  deriving DecidableEq, Repr

/-- `get_trivia_bets`: all bets on one trivia. -/
def get_trivia_bets (tid : Int) (bets : List Bet) : List Bet :=
  bets.filter (fun b => b.trivia_id == tid)

/-- The refund loop of `delete_trivia_bets`: pay each bettor's stake back
from the house; a failed transfer is only logged and the loop continues. -/
def refund_bets (connNick : String) : List Bet → Ledger → Ledger
  | [], l => l
  | b :: bs, l =>
    refund_bets connNick bs (transfer_beans connNick b.creator b.bet_amount l).2

/-- `delete_trivia_bets`: refund (best-effort) every bet on the trivia, then
delete all of its bets. -/
def delete_trivia_bets (tid : Int) (connNick : String) (l : Ledger)
    (bets : List Bet) : Ledger × List Bet :=
  (refund_bets connNick (get_trivia_bets tid bets) l,
   bets.filter (fun b => b.trivia_id != tid))

/-- `delete_trivia`: run `delete_trivia_bets`, then delete the question;
returns whether a row was deleted (`rowcount > 0`). -/
def delete_trivia (tid : Int) (connNick : String) (l : Ledger) (bets : List Bet)
    (trivias : List Trivia) : Bool × Ledger × List Bet × List Trivia :=
  let d := delete_trivia_bets tid connNick l bets
  (trivias.any (fun q => q.id == tid), d.1, d.2,
   trivias.filter (fun q => q.id != tid))

/-- The payout loop of `handle_trivia_win`: each winning bettor receives
`math.floor(total_bet_amount * (bet_amount / total_winning_bet_amount))`
computed in Python floats; bettors the house cannot pay are collected. -/
def pay_winners (connNick : String) (total totwin : Int) :
    List Bet → Ledger → Ledger × List String
  | [], l => (l, [])
  | b :: bs, l =>
    let payout := floorF (fmul (ofInt total) (fdiv (ofInt b.bet_amount) (ofInt totwin)))
    let tr := transfer_beans connNick b.creator payout l
    let rest := pay_winners connNick total totwin bs tr.2
    if tr.1 = false then (rest.1, b.creator :: rest.2) else rest

/-- `handle_trivia_win`: distribute the whole bet pool of a trivia among the
bets that named the winner, proportionally to their stakes, then delete all
of the trivia's bets.  Returns `(number of winning bets, total pool, unpaid
winners)` with the new ledger and bets table. -/
def handle_trivia_win (tid : Int) (winner_nick connNick : String) (l : Ledger)
    (bets : List Bet) : (Nat × Int × List String) × Ledger × List Bet :=
  let wn := lc winner_nick
  let bs := get_trivia_bets tid bets
  if bs.isEmpty then ((0, 0, []), l, bets)
  else
    let total_bet_amount := (bs.map Bet.bet_amount).sum
    let winning := bs.filter (fun b => lc b.winner == wn)
    if winning.isEmpty then
      ((0, total_bet_amount, []), l, bets.filter (fun b => b.trivia_id != tid))
    else
      let total_winning := (winning.map Bet.bet_amount).sum
      let p := pay_winners connNick total_bet_amount total_winning winning l
      ((winning.length, total_bet_amount, p.2), p.1,
       bets.filter (fun b => b.trivia_id != tid))

/-! ## The command surface

The operations of the plugin that can move beans, modelled after their
handlers (string parsing, permission gating and nick validation are factored
out: validation is an abstract predicate, and an op list only contains calls
that passed parsing/permissions — refused calls leave every balance
untouched, so they are irrelevant to state-evolution claims). -/

/-- The mutable state of the plugin: the beans table, the two trivia tables,
the per-nick slot cooldown cache (TTL expiry of entries is not modelled) and
the `trivia.id` autoincrement counter. -/
structure St where
  ledger : Ledger
  trivias : List Trivia
  bets : List Bet
  cooldowns : List (String × CooldownEntry)
  next_id : Int

/-- Lookup in `slot_cooldown_cache` (keyed by the raw nick). -/
def cacheLookup : List (String × CooldownEntry) → String → Option CooldownEntry
  | [], _ => none
  | (k, v) :: t, n => if k = n then some v else cacheLookup t n

/-- Update-or-insert in `slot_cooldown_cache`. -/
def cacheSet : List (String × CooldownEntry) → String → CooldownEntry →
    List (String × CooldownEntry)
  | [], n, e => [(n, e)]
  | (k, v) :: t, n, e => if k = n then (n, e) :: t else (k, v) :: cacheSet t n e

/-- One parsed, permission-cleared chat command that can move beans. -/
inductive Op where
  /-- `+<amount> beans to <target>` (regex-parsed, so `amount ≥ 0`; the
  handler additionally rejects `amount ≤ 0`, invalid targets, and
  self-transfers). -/
  | transferCmd (nick target : String) (amount : Int)
  /-- `++<amount> beans to <target>` (admin mint). -/
  | adminAdd (target : String) (amount : Int)
  /-- `.slots <bet>` at time `now` with the six RNG draws. -/
  | slotsPlay (nick : String) (bet now : Int) (expected actual : List (Fin 8))
  /-- `.trivia add <prize> <question> -> <answer>`. -/
  | triviaAdd (nick : String) (prize : Int) (question answer : String)
  /-- `.trivia delete <tid>`. -/
  | triviaDelete (nick : String) (tid : Int)
  /-- `.bet trivia <tid> place <amount> beans on <winner>`. -/
  | betPlace (nick : String) (tid : Int) (amount : Int) (winner : String)
  /-- a chat line matching a trivia answer (`track_trivia_answers`). -/
  | resolve (nick answer : String)

/-- One step of the plugin's state machine. -/
def step (connNick : String) (validNick : String → Bool) (s : St) : Op → St
  | .transferCmd nick target amount =>
    if amount ≤ 0 then s
    else if !(validNick (lc target)) then s
    else if lc nick = lc target then s
    else { s with ledger := (transfer_beans nick target amount s.ledger).2 }
  | .adminAdd target amount =>
    if !(validNick (lc target)) then s
    else if amount ≤ 0 then s
    else { s with ledger := add_beans target amount s.ledger }
  | .slotsPlay nick bet now expected actual =>
    let r := slots nick connNick bet now (cacheLookup s.cooldowns nick) s.ledger
      expected actual
    { s with
      ledger := r.2.2
      cooldowns :=
        match r.2.1 with
        | some e => cacheSet s.cooldowns nick e
        | none => s.cooldowns }
  | .triviaAdd nick prize question answer =>
    if prize ≤ 0 then s
    else if get_beans nick s.ledger < prize then s
    else
      let tr := transfer_beans nick connNick prize s.ledger
      if tr.1 = false then s
      else
        { s with
          ledger := tr.2
          trivias := s.trivias ++ [⟨s.next_id, lc nick, question, lc answer, prize⟩]
          next_id := s.next_id + 1 }
  | .triviaDelete nick tid =>
    match s.trivias.find? (fun q => q.id == tid) with
    | none => s
    | some q =>
      if lc q.creator ≠ lc nick then s
      else if get_beans connNick s.ledger < q.prize then s
      else
        let tr := transfer_beans connNick nick q.prize s.ledger
        if tr.1 = false then s
        else
          let d := delete_trivia tid connNick tr.2 s.bets s.trivias
          if d.1 then { s with ledger := d.2.1, bets := d.2.2.1, trivias := d.2.2.2 }
          else
            -- `delete_trivia` reported no deleted row: give the prize back
            { s with
              ledger := (transfer_beans nick connNick q.prize d.2.1).2
              bets := d.2.2.1
              trivias := d.2.2.2 }
  | .betPlace nick tid amount winner =>
    if amount ≤ 0 then s
    else
      match s.trivias.find? (fun q => q.id == tid) with
      | none => s
      | some q =>
        if lc winner = lc q.creator then s
        else if s.bets.any (fun b => b.creator == lc nick && b.trivia_id == tid) then s
        else if get_beans nick s.ledger < amount then s
        else
          let tr := transfer_beans nick connNick amount s.ledger
          if tr.1 = false then s
          else
            { s with
              ledger := tr.2
              bets := s.bets ++ [⟨lc nick, tid, amount, lc winner⟩] }
  | .resolve nick answer =>
    match s.trivias.find? (fun q => q.answer == lc answer) with
    | none => s
    | some q =>
      let tr := transfer_beans connNick nick q.prize s.ledger
      if tr.1 = false then s
      else
        let h := handle_trivia_win q.id nick connNick tr.2 s.bets
        let d := delete_trivia q.id connNick h.2.1 h.2.2 s.trivias
        { s with ledger := d.2.1, bets := d.2.2.1, trivias := d.2.2.2 }

/-- Run a sequence of commands. -/
def run_ops (connNick : String) (validNick : String → Bool) (ops : List Op)
    (s : St) : St :=
  ops.foldl (step connNick validNick) s

/-- The inductive invariant of the plugin's state: balances are non-negative
and every stored bet stake and trivia prize is positive (the handlers that
insert them enforce positivity). -/
def WellFormed (s : St) : Prop :=
  (∀ p ∈ s.ledger, 0 ≤ p.2) ∧ (∀ b ∈ s.bets, 0 < b.bet_amount) ∧
    (∀ q ∈ s.trivias, 0 < q.prize)

/-! ## Claim theorems about trivia deletion and bet payouts -/

/-- C3 (counterexample): the claim says a deletion that hits an
uncoverable refund reports an error and keeps the question and the
unrefunded bets.  In the code `delete_trivia_bets` merely logs the failed
transfer and carries on: with the house at 10 beans, a 50-bean bet (refund
fails, bettor `big` stays at 0) and a 10-bean bet (refund paid), the deletion
still removes every bet and the question and reports success, while the paid
refund is kept. -/
theorem delete_trivia_deletes_despite_failed_refund :
    delete_trivia 1 "bot" [("bot", 10), ("carol", 7)]
        [⟨"big", 1, 50, "w"⟩, ⟨"small", 1, 10, "w"⟩] [⟨1, "carol", "q", "x", 5⟩] =
      (true, [("bot", 0), ("carol", 7), ("small", 10)], [], []) ∧
    get_beans "big" [("bot", 0), ("carol", 7), ("small", 10)] = 0 := by decide

/-- C3 (amended): `delete_trivia` never aborts: whatever refunds succeed or
fail, it deletes every bet of the trivia and the question itself, reports
success exactly when the question existed, and its only ledger effect is the
sequence of best-effort refunds (paid refunds are not reversed; failed ones
are only logged, and the affected bets are deleted anyway rather than kept
for retry). -/
theorem delete_trivia_unconditional (tid : Int) (conn : String) (l : Ledger)
    (bets : List Bet) (trivias : List Trivia) :
    (delete_trivia tid conn l bets trivias).2.2.1 =
      bets.filter (fun b => b.trivia_id != tid) ∧
    (delete_trivia tid conn l bets trivias).2.2.2 =
      trivias.filter (fun q => q.id != tid) ∧
    ((delete_trivia tid conn l bets trivias).1 = true ↔
      ∃ q ∈ trivias, q.id = tid) ∧
    (delete_trivia tid conn l bets trivias).2.1 =
      refund_bets conn (get_trivia_bets tid bets) l := by
  refine ⟨rfl, rfl, ?_, rfl⟩
  simp [delete_trivia, List.any_eq_true]

/-- C5 (counterexample): the claim says every winning bettor is paid exactly
`floor(total_pool * bet_amount / total_winning_bet_amount)`.  The code
computes the payout in Python floats (`bet/total_winning` is float division);
with a pool of 100 entirely on the winner, split 58/42, the exact value for
the 58-bettor is `floor(100*58/100) = 58`, but `58/100` rounds to
0.57999999999999996…, `100 * 0.58 = 57.99999999999999`, and the code pays
`floor` of that: 57. -/
theorem payout_float_differs_from_exact_floor :
    get_beans "b1" (handle_trivia_win 1 "w" "bot" [("bot", 1000)]
        [⟨"b1", 1, 58, "w"⟩, ⟨"b2", 1, 42, "w"⟩]).2.1 = 57 ∧
    Int.fdiv (100 * 58) 100 = 58 := by decide

set_option maxRecDepth 200000 in
/-- C5 (amended): each winning bettor is paid
`floor(total_pool * (bet_amount / total_winning_bet_amount))` evaluated in
binary64 floats (which can undershoot the exact floor, see the
counterexample).  On the spec's scenario — winning bets 30 and 70, losing
bet 50, pool 150 — the float and exact values coincide: the payouts are
exactly 45 and 105, they exhaust the pool, and nobody is unpaid.  Any
rounding remainder stays with the house: with winning bets 1 and 1 and a
losing bet 1 (pool 3) each winner gets `floor(1.5) = 1` and the house keeps
the leftover bean. -/
theorem proportional_payout_scenario :
    (handle_trivia_win 1 "w" "bot" [("bot", 150)]
        [⟨"a", 1, 30, "w"⟩, ⟨"b", 1, 70, "w"⟩, ⟨"c", 1, 50, "x"⟩]).1 =
      (2, 150, []) ∧
    (handle_trivia_win 1 "w" "bot" [("bot", 150)]
        [⟨"a", 1, 30, "w"⟩, ⟨"b", 1, 70, "w"⟩, ⟨"c", 1, 50, "x"⟩]).2.1 =
      [("bot", 0), ("a", 45), ("b", 105)] ∧
    (handle_trivia_win 2 "w" "bot" [("bot", 3)]
        [⟨"p", 2, 1, "w"⟩, ⟨"q", 2, 1, "w"⟩, ⟨"r", 2, 1, "x"⟩]).2.1 =
      [("bot", 1), ("p", 1), ("q", 1)] := by decide

/-! ## Behaviour of the cooldown machine and `slots` -/

theorem cooldown_machine_none (minb bet now : Int) :
    cooldown_machine minb bet now none =
      cooldown_machine minb bet now (some ⟨3, 0, minb⟩) := rfl

/-- Cooldown expired, plays remaining: `accumulated_bet` clears to the
minimum bet and one play is consumed. -/
theorem cooldown_machine_expired_decrement (minb bet now : Int) (e : CooldownEntry)
    (h1 : e.cooldown_until ≤ now) (h2 : 0 < e.remaining_plays) :
    cooldown_machine minb bet now (some e) =
      .proceed ⟨e.remaining_plays - 1, e.cooldown_until, minb⟩
        (e.cooldown_until - now) := by
  obtain ⟨r, cu, ab⟩ := e
  simp only [CooldownEntry.cooldown_until] at h1
  simp only [CooldownEntry.remaining_plays] at h2
  unfold cooldown_machine
  simp only [Option.getD_some, CooldownEntry.cooldown_until,
    CooldownEntry.accumulated_bet, CooldownEntry.remaining_plays]
  rw [if_neg (show ¬(0 < cu - now ∧ bet < ab) by omega),
    if_pos (show cu - now ≤ 0 by omega)]
  simp only [CooldownEntry.cooldown_until, CooldownEntry.accumulated_bet,
    CooldownEntry.remaining_plays]
  rw [if_pos h2]

/-- Cooldown expired, no plays remaining: a new cooldown of
`round(15 * 1.5 * min_bet / min_bet)` seconds is imposed and the (cleared)
`accumulated_bet` doubles. -/
theorem cooldown_machine_expired_impose (minb bet now : Int) (e : CooldownEntry)
    (h1 : e.cooldown_until ≤ now) (h2 : e.remaining_plays ≤ 0) :
    cooldown_machine minb bet now (some e) =
      .impose (pythonRound (fdiv (fmul (fmul (ofInt 15) (mkF 3 2)) (ofInt minb)) (ofInt minb)))
        ⟨3, now + pythonRound (fdiv (fmul (fmul (ofInt 15) (mkF 3 2)) (ofInt minb)) (ofInt minb)),
          minb * 2⟩ := by
  obtain ⟨r, cu, ab⟩ := e
  simp only [CooldownEntry.cooldown_until] at h1
  simp only [CooldownEntry.remaining_plays] at h2
  unfold cooldown_machine
  simp only [Option.getD_some, CooldownEntry.cooldown_until,
    CooldownEntry.accumulated_bet, CooldownEntry.remaining_plays]
  rw [if_neg (show ¬(0 < cu - now ∧ bet < ab) by omega),
    if_pos (show cu - now ≤ 0 by omega)]
  simp only [CooldownEntry.cooldown_until, CooldownEntry.accumulated_bet,
    CooldownEntry.remaining_plays]
  rw [if_neg (show ¬(0 < r) by omega),
    if_neg (show ¬(minb < bet ∧ 0 < cu - now) by omega)]

/-- Inside a cooldown window with a bet reaching `accumulated_bet` and plays
remaining: the play is consumed and the window is untouched. -/
theorem cooldown_machine_active_decrement (minb bet now : Int) (e : CooldownEntry)
    (hw : now < e.cooldown_until) (hb : e.accumulated_bet ≤ bet)
    (h2 : 0 < e.remaining_plays) :
    cooldown_machine minb bet now (some e) =
      .proceed ⟨e.remaining_plays - 1, e.cooldown_until, e.accumulated_bet⟩
        (e.cooldown_until - now) := by
  obtain ⟨r, cu, ab⟩ := e
  simp only [CooldownEntry.cooldown_until] at hw
  simp only [CooldownEntry.accumulated_bet] at hb
  simp only [CooldownEntry.remaining_plays] at h2
  unfold cooldown_machine
  simp only [Option.getD_some, CooldownEntry.cooldown_until,
    CooldownEntry.accumulated_bet, CooldownEntry.remaining_plays]
  rw [if_neg (show ¬(0 < cu - now ∧ bet < ab) by omega),
    if_neg (show ¬(cu - now ≤ 0) by omega)]
  simp only [CooldownEntry.cooldown_until, CooldownEntry.accumulated_bet,
    CooldownEntry.remaining_plays]
  rw [if_pos h2]

/-- Whatever the cooldown machine decides to let through, the `wait` it
reports is the remaining cooldown of the (possibly default) entry. -/
theorem cooldown_machine_proceed_wait (minb bet now : Int)
    (e0 : Option CooldownEntry) (e : CooldownEntry) (w : Int)
    (hm : cooldown_machine minb bet now e0 = .proceed e w) :
    w = (e0.getD ⟨3, 0, minb⟩).cooldown_until - now := by
  simp only [cooldown_machine] at hm
  by_cases hA : (e0.getD ⟨3, 0, minb⟩).cooldown_until - now ≤ 0 <;>
    [simp only [if_pos hA, CooldownEntry.remaining_plays, CooldownEntry.cooldown_until,
      CooldownEntry.accumulated_bet] at hm;
     simp only [if_neg hA, CooldownEntry.remaining_plays, CooldownEntry.cooldown_until,
      CooldownEntry.accumulated_bet] at hm] <;>
  · split at hm
    · exact (CooldownStep.noConfusion hm)
    · split at hm
      · injection hm with hm1 hm2
        exact hm2.symm
      · split at hm
        · injection hm with hm1 hm2
          exact hm2.symm
        · exact (CooldownStep.noConfusion hm)

/-- Unfolding `slots` when the cooldown machine lets the play through. -/
theorem slots_proceed (nick conn : String) (bet now : Int)
    (e0 : Option CooldownEntry) (l : Ledger) (exp act : List (Fin 8))
    (e : CooldownEntry) (w : Int)
    (hmin : ¬ bet < min_bet_of conn l)
    (hm : cooldown_machine (min_bet_of conn l) bet now e0 = .proceed e w) :
    slots nick conn bet now e0 l exp act =
      ((slots_play nick conn bet
          (if 0 < w then
            maxF (minF (fdiv (ofInt bet) (ofInt (min_bet_of conn l)))
                       (fdiv (ofInt bet) (ofInt e.accumulated_bet))) (ofInt 1)
          else fdiv (ofInt bet) (ofInt (min_bet_of conn l)))
          (get_beans conn l) l exp act).1,
        some e,
        (slots_play nick conn bet
          (if 0 < w then
            maxF (minF (fdiv (ofInt bet) (ofInt (min_bet_of conn l)))
                       (fdiv (ofInt bet) (ofInt e.accumulated_bet))) (ofInt 1)
          else fdiv (ofInt bet) (ofInt (min_bet_of conn l)))
          (get_beans conn l) l exp act).2) := by
  unfold slots
  rw [if_neg hmin, hm]

/-- Unfolding `slots` when the cooldown machine imposes a new cooldown. -/
theorem slots_impose (nick conn : String) (bet now : Int)
    (e0 : Option CooldownEntry) (l : Ledger) (exp act : List (Fin 8))
    (ct : Int) (e : CooldownEntry)
    (hmin : ¬ bet < min_bet_of conn l)
    (hm : cooldown_machine (min_bet_of conn l) bet now e0 = .impose ct e) :
    slots nick conn bet now e0 l exp act =
      (.cooldownImposed ct e.accumulated_bet, some e, l) := by
  unfold slots
  rw [if_neg hmin, hm]

/-- C7: the cooldown escalation scenario.  With the bot holding 100 of 1100
beans (market share below 0.3, so `min_bet = 3`) and a user holding 100,
four `.slots 3` plays in rapid succession (all at times `≥ 0`, i.e. past the
initial `cooldown_until = 0`; losing draws chosen for the RNG): plays 1–3
are accepted, consuming the 3 available plays; play 4 is rejected, imposing
`cooldown_until = t4 + round(15 * 1.5 * 3 / 3) = t4 + 22`, doubling
`accumulated_bet` to 6 and resetting `remaining_plays` to 3; and a `.slots 6`
during that window (`t5 < t4 + 22`) is accepted immediately with
`cooldown_until` unchanged. -/
theorem cooldown_escalation_scenario (t1 t2 t3 t4 t5 : Int)
    (h1 : 0 ≤ t1) (h2 : 0 ≤ t2) (h3 : 0 ≤ t3) (h4 : 0 ≤ t4)
    (h5 : t5 < t4 + 22) :
    slots "u" "bot" 3 t1 none
        [("u", 100), ("bot", 100), ("whale", 900)] [0, 0, 0] [1, 1, 1] =
      (.noMatch, some ⟨2, 0, 3⟩, [("u", 97), ("bot", 103), ("whale", 900)]) ∧
    slots "u" "bot" 3 t2 (some ⟨2, 0, 3⟩)
        [("u", 97), ("bot", 103), ("whale", 900)] [0, 0, 0] [1, 1, 1] =
      (.noMatch, some ⟨1, 0, 3⟩, [("u", 94), ("bot", 106), ("whale", 900)]) ∧
    slots "u" "bot" 3 t3 (some ⟨1, 0, 3⟩)
        [("u", 94), ("bot", 106), ("whale", 900)] [0, 0, 0] [1, 1, 1] =
      (.noMatch, some ⟨0, 0, 3⟩, [("u", 91), ("bot", 109), ("whale", 900)]) ∧
    slots "u" "bot" 3 t4 (some ⟨0, 0, 3⟩)
        [("u", 91), ("bot", 109), ("whale", 900)] [0, 0, 0] [1, 1, 1] =
      (.cooldownImposed 22 6, some ⟨3, t4 + 22, 6⟩,
        [("u", 91), ("bot", 109), ("whale", 900)]) ∧
    (22 : Int) =
      pythonRound (fdiv (fmul (fmul (ofInt 15) (mkF 3 2)) (ofInt 3)) (ofInt 3)) ∧
    slots "u" "bot" 6 t5 (some ⟨3, t4 + 22, 6⟩)
        [("u", 91), ("bot", 109), ("whale", 900)] [0, 0, 0] [1, 1, 1] =
      (.noMatch, some ⟨2, t4 + 22, 6⟩,
        [("u", 85), ("bot", 115), ("whale", 900)]) := by
  have hp1 : slots "u" "bot" 3 t1 none
      [("u", 100), ("bot", 100), ("whale", 900)] [0, 0, 0] [1, 1, 1] =
      (.noMatch, some ⟨2, 0, 3⟩, [("u", 97), ("bot", 103), ("whale", 900)]) := by
    have hm : cooldown_machine
        (min_bet_of "bot" [("u", 100), ("bot", 100), ("whale", 900)]) 3 t1 none =
        .proceed ⟨2, 0, 3⟩ (0 - t1) := by
      have hmb : min_bet_of "bot" [("u", 100), ("bot", 100), ("whale", 900)] = 3 := by
        decide
      rw [hmb, cooldown_machine_none,
        cooldown_machine_expired_decrement 3 3 t1 ⟨3, 0, 3⟩
          (by simp only [CooldownEntry.cooldown_until]; omega)
          (by simp only [CooldownEntry.remaining_plays]; omega)]
      simp only [CooldownEntry.remaining_plays, CooldownEntry.cooldown_until]
      norm_num
    rw [slots_proceed _ _ _ _ _ _ _ _ _ _ (by decide) hm,
      if_neg (show ¬(0 : Int) < 0 - t1 by omega)]
    decide
  have hp2 : slots "u" "bot" 3 t2 (some ⟨2, 0, 3⟩)
      [("u", 97), ("bot", 103), ("whale", 900)] [0, 0, 0] [1, 1, 1] =
      (.noMatch, some ⟨1, 0, 3⟩, [("u", 94), ("bot", 106), ("whale", 900)]) := by
    have hm : cooldown_machine
        (min_bet_of "bot" [("u", 97), ("bot", 103), ("whale", 900)]) 3 t2
          (some ⟨2, 0, 3⟩) = .proceed ⟨1, 0, 3⟩ (0 - t2) := by
      have hmb : min_bet_of "bot" [("u", 97), ("bot", 103), ("whale", 900)] = 3 := by
        decide
      rw [hmb, cooldown_machine_expired_decrement 3 3 t2 ⟨2, 0, 3⟩
        (by simp only [CooldownEntry.cooldown_until]; omega)
        (by simp only [CooldownEntry.remaining_plays]; omega)]
      simp only [CooldownEntry.remaining_plays, CooldownEntry.cooldown_until]
      norm_num
    rw [slots_proceed _ _ _ _ _ _ _ _ _ _ (by decide) hm,
      if_neg (show ¬(0 : Int) < 0 - t2 by omega)]
    decide
  have hp3 : slots "u" "bot" 3 t3 (some ⟨1, 0, 3⟩)
      [("u", 94), ("bot", 106), ("whale", 900)] [0, 0, 0] [1, 1, 1] =
      (.noMatch, some ⟨0, 0, 3⟩, [("u", 91), ("bot", 109), ("whale", 900)]) := by
    have hm : cooldown_machine
        (min_bet_of "bot" [("u", 94), ("bot", 106), ("whale", 900)]) 3 t3
          (some ⟨1, 0, 3⟩) = .proceed ⟨0, 0, 3⟩ (0 - t3) := by
      have hmb : min_bet_of "bot" [("u", 94), ("bot", 106), ("whale", 900)] = 3 := by
        decide
      rw [hmb, cooldown_machine_expired_decrement 3 3 t3 ⟨1, 0, 3⟩
        (by simp only [CooldownEntry.cooldown_until]; omega)
        (by simp only [CooldownEntry.remaining_plays]; omega)]
      simp only [CooldownEntry.remaining_plays, CooldownEntry.cooldown_until]
      norm_num
    rw [slots_proceed _ _ _ _ _ _ _ _ _ _ (by decide) hm,
      if_neg (show ¬(0 : Int) < 0 - t3 by omega)]
    decide
  have hp4 : slots "u" "bot" 3 t4 (some ⟨0, 0, 3⟩)
      [("u", 91), ("bot", 109), ("whale", 900)] [0, 0, 0] [1, 1, 1] =
      (.cooldownImposed 22 6, some ⟨3, t4 + 22, 6⟩,
        [("u", 91), ("bot", 109), ("whale", 900)]) := by
    have hm : cooldown_machine
        (min_bet_of "bot" [("u", 91), ("bot", 109), ("whale", 900)]) 3 t4
          (some ⟨0, 0, 3⟩) = .impose 22 ⟨3, t4 + 22, 6⟩ := by
      have hmb : min_bet_of "bot" [("u", 91), ("bot", 109), ("whale", 900)] = 3 := by
        decide
      rw [hmb, cooldown_machine_expired_impose 3 3 t4 ⟨0, 0, 3⟩
        (by simp only [CooldownEntry.cooldown_until]; omega)
        (by simp only [CooldownEntry.remaining_plays]; omega)]
      have hct : pythonRound
          (fdiv (fmul (fmul (ofInt 15) (mkF 3 2)) (ofInt 3)) (ofInt 3)) = 22 := by
        decide
      rw [hct]
      norm_num
    rw [slots_impose _ _ _ _ _ _ _ _ _ _ (by decide) hm]
  have hp5 : slots "u" "bot" 6 t5 (some ⟨3, t4 + 22, 6⟩)
      [("u", 91), ("bot", 109), ("whale", 900)] [0, 0, 0] [1, 1, 1] =
      (.noMatch, some ⟨2, t4 + 22, 6⟩,
        [("u", 85), ("bot", 115), ("whale", 900)]) := by
    have hm : cooldown_machine
        (min_bet_of "bot" [("u", 91), ("bot", 109), ("whale", 900)]) 6 t5
          (some ⟨3, t4 + 22, 6⟩) = .proceed ⟨2, t4 + 22, 6⟩ (t4 + 22 - t5) := by
      have hmb : min_bet_of "bot" [("u", 91), ("bot", 109), ("whale", 900)] = 3 := by
        decide
      rw [hmb, cooldown_machine_active_decrement 3 6 t5 ⟨3, t4 + 22, 6⟩
        (by simp only [CooldownEntry.cooldown_until]; omega)
        (by simp only [CooldownEntry.accumulated_bet]; omega)
        (by simp only [CooldownEntry.remaining_plays]; omega)]
      simp only [CooldownEntry.remaining_plays, CooldownEntry.cooldown_until,
        CooldownEntry.accumulated_bet]
      norm_num
    rw [slots_proceed _ _ _ _ _ _ _ _ _ _ (by decide) hm,
      if_pos (show (0 : Int) < t4 + 22 - t5 by omega)]
    simp only [CooldownEntry.accumulated_bet]
    rw [show slots_play "u" "bot" 6
        (maxF (minF
            (fdiv (ofInt 6) (ofInt (min_bet_of "bot" [("u", 91), ("bot", 109), ("whale", 900)])))
            (fdiv (ofInt 6) (ofInt 6))) (ofInt 1))
        (get_beans "bot" [("u", 91), ("bot", 109), ("whale", 900)])
        [("u", 91), ("bot", 109), ("whale", 900)] [0, 0, 0] [1, 1, 1] =
        (.noMatch, [("u", 85), ("bot", 115), ("whale", 900)]) from by decide]
  exact ⟨hp1, hp2, hp3, hp4, by decide, hp5⟩

theorem slots_belowMin (nick conn : String) (bet now : Int)
    (e0 : Option CooldownEntry) (l : Ledger) (exp act : List (Fin 8))
    (hmin : bet < min_bet_of conn l) :
    slots nick conn bet now e0 l exp act =
      (.belowMin (min_bet_of conn l), e0, l) := by
  unfold slots
  rw [if_pos hmin]

theorem slots_reject (nick conn : String) (bet now : Int)
    (e0 : Option CooldownEntry) (l : Ledger) (exp act : List (Fin 8))
    (w ab : Int) (e : CooldownEntry)
    (hmin : ¬ bet < min_bet_of conn l)
    (hm : cooldown_machine (min_bet_of conn l) bet now e0 = .reject w ab e) :
    slots nick conn bet now e0 l exp act = (.cooldownActive w ab, some e, l) := by
  unfold slots
  rw [if_neg hmin, hm]

/-- Case analysis of the play phase: a 3-match play pays
`ceil(bm * 100)`, a 2-match play pays `ceil(bm * (ceil(bm * 100) / 2))` —
the bet multiplier applied a second time on top of the already-scaled
jackpot — and a 0/1-match play only debits the bet. -/
theorem slots_play_cases (nick conn : String) (bet : Int) (bm : Frac)
    (botB : Int) (l : Ledger) (exp act : List (Fin 8)) :
    (∀ p, (slots_play nick conn bet bm botB l exp act).1 = .jackpot p →
      p = ceilF (fmul bm (ofInt 100))) ∧
    (∀ p, (slots_play nick conn bet bm botB l exp act).1 = .twoMatch p →
      p = ceilF (fmul bm (fdiv (ofInt (ceilF (fmul bm (ofInt 100)))) (ofInt 2)))) ∧
    ((slots_play nick conn bet bm botB l exp act).1 = .oneMatch ∨
        (slots_play nick conn bet bm botB l exp act).1 = .noMatch →
      (slots_play nick conn bet bm botB l exp act).2 =
        (transfer_beans nick conn bet l).2) := by
  simp only [slots_play]
  by_cases hu : get_beans nick l < bet
  · rw [if_pos hu]
    exact ⟨fun p hp => by simp at hp, fun p hp => by simp at hp,
      fun hp => by rcases hp with hp | hp <;> simp at hp⟩
  · rw [if_neg hu]
    by_cases hb : botB < ceilF (fmul bm (ofInt 100))
    · rw [if_pos hb]
      exact ⟨fun p hp => by simp at hp, fun p hp => by simp at hp,
        fun hp => by rcases hp with hp | hp <;> simp at hp⟩
    · rw [if_neg hb]
      by_cases htr : (transfer_beans nick conn bet l).1 = false
      · rw [if_pos htr]
        exact ⟨fun p hp => by simp at hp, fun p hp => by simp at hp,
          fun hp => by rcases hp with hp | hp <;> simp at hp⟩
      · rw [if_neg htr]
        by_cases h3 : countMatches exp act = 3
        · rw [if_pos h3]
          by_cases htr2 : (transfer_beans conn nick (ceilF (fmul bm (ofInt 100)))
              (transfer_beans nick conn bet l).2).1 = false
          · rw [if_pos htr2]
            exact ⟨fun p hp => by simp at hp, fun p hp => by simp at hp,
              fun hp => by rcases hp with hp | hp <;> simp at hp⟩
          · rw [if_neg htr2]
            refine ⟨fun p hp => ?_, fun p hp => by simp at hp,
              fun hp => by rcases hp with hp | hp <;> simp at hp⟩
            simp at hp
            omega
        · rw [if_neg h3]
          by_cases h2 : countMatches exp act = 2
          · rw [if_pos h2]
            by_cases htr2 : (transfer_beans conn nick
                (ceilF (fmul bm (fdiv (ofInt (ceilF (fmul bm (ofInt 100)))) (ofInt 2))))
                (transfer_beans nick conn bet l).2).1 = false
            · rw [if_pos htr2]
              exact ⟨fun p hp => by simp at hp, fun p hp => by simp at hp,
                fun hp => by rcases hp with hp | hp <;> simp at hp⟩
            · rw [if_neg htr2]
              refine ⟨fun p hp => by simp at hp, fun p hp => ?_,
                fun hp => by rcases hp with hp | hp <;> simp at hp⟩
              simp at hp
              omega
          · rw [if_neg h2]
            by_cases h1 : countMatches exp act = 1
            · rw [if_pos h1]
              exact ⟨fun p hp => by simp at hp, fun p hp => by simp at hp,
                fun hp => rfl⟩
            · rw [if_neg h1]
              exact ⟨fun p hp => by simp at hp, fun p hp => by simp at hp,
                fun hp => rfl⟩

/-- If the outcome of the play phase is one of the two funds rejections, the
ledger is returned untouched. -/
theorem slots_play_funds_frame (nick conn : String) (bet : Int) (bm : Frac)
    (botB : Int) (l : Ledger) (exp act : List (Fin 8))
    (h : (∃ ub, (slots_play nick conn bet bm botB l exp act).1 = .notEnoughUser ub) ∨
         (∃ mp, (slots_play nick conn bet bm botB l exp act).1 = .notEnoughHouse mp)) :
    (slots_play nick conn bet bm botB l exp act).2 = l := by
  simp only [slots_play] at h ⊢
  by_cases hu : get_beans nick l < bet
  · rw [if_pos hu]
  · rw [if_neg hu] at h ⊢
    by_cases hb : botB < ceilF (fmul bm (ofInt 100))
    · rw [if_pos hb]
    · rw [if_neg hb] at h ⊢
      exfalso
      by_cases htr : (transfer_beans nick conn bet l).1 = false
      · rw [if_pos htr] at h
        rcases h with ⟨ub, h⟩ | ⟨mp, h⟩ <;> simp at h
      · rw [if_neg htr] at h
        by_cases h3 : countMatches exp act = 3
        · rw [if_pos h3] at h
          by_cases htr2 : (transfer_beans conn nick (ceilF (fmul bm (ofInt 100)))
              (transfer_beans nick conn bet l).2).1 = false <;>
            [rw [if_pos htr2] at h; rw [if_neg htr2] at h] <;>
            rcases h with ⟨ub, h⟩ | ⟨mp, h⟩ <;> simp at h
        · rw [if_neg h3] at h
          by_cases h2 : countMatches exp act = 2
          · rw [if_pos h2] at h
            by_cases htr2 : (transfer_beans conn nick
                (ceilF (fmul bm (fdiv (ofInt (ceilF (fmul bm (ofInt 100)))) (ofInt 2))))
                (transfer_beans nick conn bet l).2).1 = false <;>
              [rw [if_pos htr2] at h; rw [if_neg htr2] at h] <;>
              rcases h with ⟨ub, h⟩ | ⟨mp, h⟩ <;> simp at h
          · rw [if_neg h2] at h
            by_cases h1 : countMatches exp act = 1 <;>
              [rw [if_pos h1] at h; rw [if_neg h1] at h] <;>
              rcases h with ⟨ub, h⟩ | ⟨mp, h⟩ <;> simp at h

set_option maxRecDepth 400000 in
/-- C4 (counterexample): the claim says a 2-match play pays half of the
jackpot.  With `min_bet = 3` and bet 6 (bet multiplier 2) the jackpot is
`ceil(2 * 100) = 200`, so half would be 100 — but the code multiplies the
already-scaled jackpot by the bet multiplier again, `ceil(2 * (200 / 2)) =
200`: the 2-match prize equals the full jackpot, not half of it. -/
theorem slots_two_match_pays_double_scaled :
    (slots "u" "bot" 6 5 none [("bot", 300), ("whale", 900), ("u", 50)]
        [0, 1, 2] [0, 1, 2]).1 = .jackpot 200 ∧
    (slots "u" "bot" 6 5 none [("bot", 300), ("whale", 900), ("u", 50)]
        [0, 1, 2] [0, 1, 3]).1 = .twoMatch 200 ∧
    (200 : Int) ≠ 200 / 2 := by decide

/-- C4 (amended): for a play outside any cooldown window (so the effective
bet multiplier is `bet / min_bet`), 3 matches pay the jackpot
`ceil((bet / min_bet) * 100)`; 2 matches pay
`ceil((bet / min_bet) * (jackpot / 2))` — the bet multiplier is applied a
second time on top of the already-scaled jackpot, so this equals half of the
jackpot only when `bet = min_bet`; 0 or 1 matches pay nothing, the debited
bet staying with the house.  (All arithmetic in binary64 floats.) -/
theorem slots_payout_formulas (nick conn : String) (bet now : Int)
    (e0 : Option CooldownEntry) (l : Ledger) (exp act : List (Fin 8))
    (hcd : (e0.getD ⟨3, 0, min_bet_of conn l⟩).cooldown_until ≤ now) :
    (∀ p, (slots nick conn bet now e0 l exp act).1 = .jackpot p →
      p = ceilF (fmul (fdiv (ofInt bet) (ofInt (min_bet_of conn l))) (ofInt 100))) ∧
    (∀ p, (slots nick conn bet now e0 l exp act).1 = .twoMatch p →
      p = ceilF (fmul (fdiv (ofInt bet) (ofInt (min_bet_of conn l)))
        (fdiv (ofInt (ceilF
            (fmul (fdiv (ofInt bet) (ofInt (min_bet_of conn l))) (ofInt 100))))
          (ofInt 2)))) ∧
    ((slots nick conn bet now e0 l exp act).1 = .oneMatch ∨
        (slots nick conn bet now e0 l exp act).1 = .noMatch →
      (slots nick conn bet now e0 l exp act).2.2 =
        (transfer_beans nick conn bet l).2) := by
  by_cases hmin : bet < min_bet_of conn l
  · rw [slots_belowMin _ _ _ _ _ _ _ _ hmin]
    exact ⟨fun p hp => by simp at hp, fun p hp => by simp at hp,
      fun hp => by rcases hp with hp | hp <;> simp at hp⟩
  · rcases hmach : cooldown_machine (min_bet_of conn l) bet now e0 with
      ⟨w', ab', e'⟩ | ⟨ct, e'⟩ | ⟨e', w⟩
    · rw [slots_reject _ _ _ _ _ _ _ _ _ _ _ hmin hmach]
      exact ⟨fun p hp => by simp at hp, fun p hp => by simp at hp,
        fun hp => by rcases hp with hp | hp <;> simp at hp⟩
    · rw [slots_impose _ _ _ _ _ _ _ _ _ _ hmin hmach]
      exact ⟨fun p hp => by simp at hp, fun p hp => by simp at hp,
        fun hp => by rcases hp with hp | hp <;> simp at hp⟩
    · have hw : ¬ 0 < w := by
        rw [cooldown_machine_proceed_wait _ _ _ _ _ _ hmach]
        omega
      rw [slots_proceed _ _ _ _ _ _ _ _ _ _ hmin hmach, if_neg hw]
      exact slots_play_cases nick conn bet
        (fdiv (ofInt bet) (ofInt (min_bet_of conn l))) (get_beans conn l) l exp act

set_option maxRecDepth 400000 in
theorem slots_payout_formulas_witness :
    (200 : Int) = ceilF (fmul
      (fdiv (ofInt 6) (ofInt (min_bet_of "bot" [("bot", 300), ("whale", 900), ("u", 50)])))
      (fdiv (ofInt (ceilF (fmul
          (fdiv (ofInt 6) (ofInt (min_bet_of "bot" [("bot", 300), ("whale", 900), ("u", 50)])))
          (ofInt 100))))
        (ofInt 2))) :=
  (slots_payout_formulas "u" "bot" 6 5 none [("bot", 300), ("whale", 900), ("u", 50)]
    [0, 1, 2] [0, 1, 3] (by decide)).2.1 200 (by decide)

set_option maxRecDepth 400000 in
/-- C6 (counterexample): the claim says a play rejected for insufficient user
funds leaves the CooldownState exactly as before.  In the code the balance
check runs only after the cooldown state machine: a user with no beans and a
fresh entry `(3, 0, 3)` is rejected for funds, yet the cache now holds
`(2, 0, 3)` — a play was consumed. -/
theorem slots_funds_rejection_mutates_cooldown :
    slots "u" "bot" 3 5 (some ⟨3, 0, 3⟩) [("bot", 200), ("whale", 900)]
        [0, 0, 0] [1, 1, 1] =
      (.notEnoughUser 0, some ⟨2, 0, 3⟩, [("bot", 200), ("whale", 900)]) ∧
    (⟨2, 0, 3⟩ : CooldownEntry) ≠ ⟨3, 0, 3⟩ := by decide

/-- C6 (amended): a play rejected because the user's balance is below the bet
or the house balance is below the bet-scaled maximum prize leaves every
balance untouched, but these checks run only after the cooldown state
machine: the user's cache entry holds the post-machine state (play consumed
or bypass recorded), not the pre-call state. -/
theorem slots_funds_rejection_frame (nick conn : String) (bet now : Int)
    (e0 : Option CooldownEntry) (l : Ledger) (exp act : List (Fin 8))
    (e : CooldownEntry) (w : Int)
    (hm : cooldown_machine (min_bet_of conn l) bet now e0 = .proceed e w)
    (hr : (∃ ub, (slots nick conn bet now e0 l exp act).1 = .notEnoughUser ub) ∨
          (∃ mp, (slots nick conn bet now e0 l exp act).1 = .notEnoughHouse mp)) :
    (slots nick conn bet now e0 l exp act).2.1 = some e ∧
    (slots nick conn bet now e0 l exp act).2.2 = l := by
  by_cases hmin : bet < min_bet_of conn l
  · exfalso
    rw [slots_belowMin _ _ _ _ _ _ _ _ hmin] at hr
    rcases hr with ⟨ub, h⟩ | ⟨mp, h⟩ <;> simp at h
  · rw [slots_proceed _ _ _ _ _ _ _ _ _ _ hmin hm] at hr ⊢
    exact ⟨rfl, slots_play_funds_frame nick conn bet _ (get_beans conn l) l exp act hr⟩

set_option maxRecDepth 400000 in
theorem slots_funds_rejection_frame_witness :
    (slots "u" "bot" 3 5 (some ⟨3, 0, 3⟩) [("bot", 200), ("whale", 900)]
        [0, 0, 0] [1, 1, 1]).2.1 = some ⟨2, 0, 3⟩ ∧
    (slots "u" "bot" 3 5 (some ⟨3, 0, 3⟩) [("bot", 200), ("whale", 900)]
        [0, 0, 0] [1, 1, 1]).2.2 = [("bot", 200), ("whale", 900)] :=
  slots_funds_rejection_frame "u" "bot" 3 5 (some ⟨3, 0, 3⟩)
    [("bot", 200), ("whale", 900)] [0, 0, 0] [1, 1, 1] ⟨2, 0, 3⟩ (-5)
    (by decide) (Or.inl ⟨0, by decide⟩)

theorem cooldown_escalation_scenario_witness :
    slots "u" "bot" 6 1 (some ⟨3, 0 + 22, 6⟩)
        [("u", 91), ("bot", 109), ("whale", 900)] [0, 0, 0] [1, 1, 1] =
      (.noMatch, some ⟨2, 0 + 22, 6⟩,
        [("u", 85), ("bot", 115), ("whale", 900)]) :=
  (cooldown_escalation_scenario 0 0 0 0 1 (by decide) (by decide) (by decide)
    (by decide) (by decide)).2.2.2.2.2


/-! ## No negative balances: the inductive invariant

The remaining lemmas establish that every command-surface operation keeps all
balances non-negative.  The key facts: `transfer_beans` with a non-negative
amount preserves non-negativity (its internal balance check protects the
sender, and the recipient only gains), and every amount the handlers pass to
`transfer_beans` or `add_beans` is non-negative — bets and prizes are
positive by the insertion guards, and the slot prizes are ceilings/floors of
products and quotients of non-negative floats. -/

theorem mem_rowSet (l : List (String × Int)) (k : String) (a : Int) (p : String × Int)
    (hp : p ∈ rowSet l k a) : p = (k, a) ∨ p ∈ l := by
  induction l with
  | nil =>
    simp only [rowSet, List.mem_singleton] at hp
    exact Or.inl hp
  | cons hd t ih =>
    obtain ⟨k₀, v⟩ := hd
    by_cases hk : k₀ = k
    · simp only [rowSet, if_pos hk, List.mem_cons] at hp
      rcases hp with hp | hp
      · exact Or.inl hp
      · exact Or.inr (List.mem_cons_of_mem _ hp)
    · simp only [rowSet, if_neg hk, List.mem_cons] at hp
      rcases hp with hp | hp
      · exact Or.inr (by simp [hp])
      · rcases ih hp with hp | hp
        · exact Or.inl hp
        · exact Or.inr (List.mem_cons_of_mem _ hp)

theorem rowLookup_mem (l : List (String × Int)) (k : String) (v : Int)
    (h : rowLookup l k = some v) : (k, v) ∈ l := by
  induction l with
  | nil => simp [rowLookup] at h
  | cons hd t ih =>
    obtain ⟨k₀, v₀⟩ := hd
    by_cases hk : k₀ = k
    · subst hk
      simp [rowLookup] at h
      cases h
      exact List.mem_cons_self _ _
    · simp only [rowLookup, if_neg hk] at h
      exact List.mem_cons_of_mem _ (ih h)

theorem get_beans_nonneg (l : Ledger) (hl : ∀ p ∈ l, 0 ≤ p.2) (n : String) :
    0 ≤ get_beans n l := by
  unfold get_beans
  rcases h : rowLookup l (lc n) with _ | v
  · simp
  · simpa using hl _ (rowLookup_mem _ _ _ h)

theorem set_beans_nonneg (l : Ledger) (n : String) (a : Int)
    (hl : ∀ p ∈ l, 0 ≤ p.2) (ha : 0 ≤ a) : ∀ p ∈ set_beans n a l, 0 ≤ p.2 := by
  intro p hp
  rcases mem_rowSet _ _ _ _ hp with hp | hp
  · simp [hp, ha]
  · exact hl _ hp

theorem transfer_beans_nonneg (f t : String) (a : Int) (l : Ledger)
    (hl : ∀ p ∈ l, 0 ≤ p.2) (ha : 0 ≤ a) :
    ∀ p ∈ (transfer_beans f t a l).2, 0 ≤ p.2 := by
  by_cases h : get_beans f l < a
  · rw [transfer_beans_fail f t a l h]
    exact hl
  · rw [transfer_beans_succ f t a l (not_lt.mp h)]
    have h1 : ∀ p ∈ set_beans f (get_beans f l - a) l, 0 ≤ p.2 :=
      set_beans_nonneg l f _ hl (by omega)
    exact set_beans_nonneg _ t _ h1
      (by have := get_beans_nonneg l hl t; omega)

theorem add_beans_nonneg (n : String) (a : Int) (l : Ledger)
    (hl : ∀ p ∈ l, 0 ≤ p.2) (ha : 0 ≤ a) :
    ∀ p ∈ add_beans n a l, 0 ≤ p.2 :=
  set_beans_nonneg l n _ hl (by have := get_beans_nonneg l hl n; omega)

/-! ### Sign facts about the float model -/

theorem pow2_num_pos (k : Int) : 0 < (pow2 k).num := by
  unfold pow2
  split <;> simp

theorem pow2_den_pos (k : Int) : 0 < (pow2 k).den := by
  unfold pow2
  split <;> simp

theorem floorF_nonneg (q : Frac) (h1 : 0 ≤ q.num) (h2 : 0 ≤ q.den) :
    0 ≤ floorF q :=
  Int.fdiv_nonneg h1 h2

theorem ceilF_nonneg (q : Frac) (h1 : 0 ≤ q.num) (h2 : 0 ≤ q.den) :
    0 ≤ ceilF q := by
  unfold ceilF
  rcases eq_or_lt_of_le h1 with h1 | h1
  · simp [← h1]
  · rcases eq_or_lt_of_le h2 with h2 | h2
    · simp [← h2]
    · have := Int.fdiv_neg' (a := -q.num) (b := q.den) (by omega) h2
      omega

theorem pythonRound_nonneg (q : Frac) (h1 : 0 ≤ q.num) (h2 : 0 ≤ q.den) :
    0 ≤ pythonRound q := by
  simp only [pythonRound]
  have hf : 0 ≤ floorF q := floorF_nonneg q h1 h2
  split_ifs <;> omega

theorem roundPos_sign (q : Frac) :
    0 < (roundPos q).den ∧ (0 ≤ q.num → 0 ≤ q.den → 0 ≤ (roundPos q).num) := by
  unfold roundPos divF mkF ofInt
  have hn := pow2_num_pos (fexp q)
  have hd := pow2_den_pos (fexp q)
  rw [if_neg (by omega : ¬ (1 * (pow2 (fexp q)).num < 0))]
  refine ⟨by simpa using hn, fun h1 h2 => ?_⟩
  have hm : 0 ≤ pythonRound (mulF q (pow2 (fexp q))) := by
    apply pythonRound_nonneg <;> unfold mulF <;> simp <;> positivity
  simpa using mul_nonneg hm (le_of_lt hd)

theorem roundB64_den_pos (q : Frac) : 0 < (roundB64 q).den := by
  unfold roundB64
  split_ifs
  · exact (roundPos_sign q).1
  · exact (roundPos_sign ⟨-q.num, q.den⟩).1
  · simp [ofInt]

theorem roundB64_num_nonneg (q : Frac) (h1 : 0 ≤ q.num) (h2 : 0 ≤ q.den) :
    0 ≤ (roundB64 q).num := by
  unfold roundB64
  split_ifs with hp hn
  · exact (roundPos_sign q).2 h1 h2
  · omega
  · simp [ofInt]

theorem fdiv_int_sign (a b : Int) (ha : 0 ≤ a) (hb : 0 ≤ b) :
    0 ≤ (fdiv (ofInt a) (ofInt b)).num ∧ 0 < (fdiv (ofInt a) (ofInt b)).den := by
  unfold fdiv
  constructor
  · apply roundB64_num_nonneg <;> unfold divF mkF ofInt <;>
      rw [if_neg (by omega : ¬ (1 * b < 0))] <;> simpa
  · exact roundB64_den_pos _

theorem fmul_sign (a b : Frac) (ha1 : 0 ≤ a.num) (ha2 : 0 ≤ a.den)
    (hb1 : 0 ≤ b.num) (hb2 : 0 ≤ b.den) :
    0 ≤ (fmul a b).num ∧ 0 < (fmul a b).den := by
  unfold fmul
  exact ⟨roundB64_num_nonneg _ (by unfold mulF; simpa using mul_nonneg ha1 hb1)
      (by unfold mulF; simpa using mul_nonneg ha2 hb2),
    roundB64_den_pos _⟩

theorem maxF_one_sign (x : Frac) (hden : 0 < x.den) :
    0 ≤ (maxF x (ofInt 1)).num ∧ 0 < (maxF x (ofInt 1)).den := by
  unfold maxF
  split_ifs with h
  · simp [ofInt]
  · unfold ltF ofInt at h
    simp only at h
    constructor <;> omega

theorem minF_den_pos (a b : Frac) (ha : 0 < a.den) (hb : 0 < b.den) :
    0 < (minF a b).den := by
  unfold minF
  split_ifs <;> assumption

/-! ### Non-negativity through `slots` -/

theorem min_bet_of_pos (conn : String) (l : Ledger) : 1 ≤ min_bet_of conn l := by
  simp only [min_bet_of]
  split_ifs <;> omega

theorem slots_play_nonneg (nick conn : String) (bet : Int) (bm : Frac)
    (botB : Int) (l : Ledger) (exp act : List (Fin 8))
    (hl : ∀ p ∈ l, 0 ≤ p.2) (hbet : 0 ≤ bet)
    (hbm1 : 0 ≤ bm.num) (hbm2 : 0 ≤ bm.den) :
    ∀ p ∈ (slots_play nick conn bet bm botB l exp act).2, 0 ≤ p.2 := by
  have hmp : 0 ≤ ceilF (fmul bm (ofInt 100)) := by
    have := fmul_sign bm (ofInt 100) hbm1 hbm2 (by simp [ofInt]) (by simp [ofInt])
    exact ceilF_nonneg _ this.1 (le_of_lt this.2)
  have hl1 : ∀ p ∈ (transfer_beans nick conn bet l).2, 0 ≤ p.2 :=
    transfer_beans_nonneg nick conn bet l hl hbet
  have hprize : 0 ≤ ceilF (fmul bm (fdiv (ofInt (ceilF (fmul bm (ofInt 100)))) (ofInt 2))) := by
    have hd := fdiv_int_sign (ceilF (fmul bm (ofInt 100))) 2 hmp (by omega)
    have := fmul_sign bm _ hbm1 hbm2 hd.1 (le_of_lt hd.2)
    exact ceilF_nonneg _ this.1 (le_of_lt this.2)
  simp only [slots_play]
  split_ifs with hu hb htr h3 htr2 h2 htr3 h1
  · exact hl
  · exact hl
  · exact hl1
  · exact transfer_beans_nonneg _ _ _ _ hl1 hmp
  · exact transfer_beans_nonneg _ _ _ _ hl1 hmp
  · exact transfer_beans_nonneg _ _ _ _ hl1 hprize
  · exact transfer_beans_nonneg _ _ _ _ hl1 hprize
  · exact hl1
  · exact hl1

theorem slots_ledger_nonneg (nick conn : String) (bet now : Int)
    (e0 : Option CooldownEntry) (l : Ledger) (exp act : List (Fin 8))
    (hl : ∀ p ∈ l, 0 ≤ p.2) :
    ∀ p ∈ (slots nick conn bet now e0 l exp act).2.2, 0 ≤ p.2 := by
  by_cases hmin : bet < min_bet_of conn l
  · rw [slots_belowMin _ _ _ _ _ _ _ _ hmin]
    exact hl
  · have hbet : 0 ≤ bet := by have := min_bet_of_pos conn l; omega
    rcases hmach : cooldown_machine (min_bet_of conn l) bet now e0 with
      ⟨w', ab', e'⟩ | ⟨ct, e'⟩ | ⟨e', w⟩
    · rw [slots_reject _ _ _ _ _ _ _ _ _ _ _ hmin hmach]
      exact hl
    · rw [slots_impose _ _ _ _ _ _ _ _ _ _ hmin hmach]
      exact hl
    · rw [slots_proceed _ _ _ _ _ _ _ _ _ _ hmin hmach]
      have hminb : (0 : Int) ≤ min_bet_of conn l := by
        have := min_bet_of_pos conn l; omega
      split_ifs with hw
      · have hA := fdiv_int_sign bet (min_bet_of conn l) hbet hminb
        have hBd : 0 < (fdiv (ofInt bet) (ofInt e'.accumulated_bet)).den :=
          roundB64_den_pos _
        have hmd : 0 < (minF (fdiv (ofInt bet) (ofInt (min_bet_of conn l)))
            (fdiv (ofInt bet) (ofInt e'.accumulated_bet))).den :=
          minF_den_pos _ _ hA.2 hBd
        have hmx := maxF_one_sign _ hmd
        exact slots_play_nonneg _ _ _ _ _ _ _ _ hl hbet hmx.1 (le_of_lt hmx.2)
      · have hA := fdiv_int_sign bet (min_bet_of conn l) hbet hminb
        exact slots_play_nonneg _ _ _ _ _ _ _ _ hl hbet hA.1 (le_of_lt hA.2)

/-! ### Non-negativity through the trivia market -/

theorem refund_bets_nonneg (conn : String) (bs : List Bet) (l : Ledger)
    (hl : ∀ p ∈ l, 0 ≤ p.2) (hb : ∀ b ∈ bs, 0 ≤ b.bet_amount) :
    ∀ p ∈ refund_bets conn bs l, 0 ≤ p.2 := by
  induction bs generalizing l with
  | nil => exact hl
  | cons b rest ih =>
    exact ih _ (transfer_beans_nonneg _ _ _ _ hl (hb b (List.mem_cons_self b rest)))
      (fun b' hb' => hb b' (List.mem_cons_of_mem _ hb'))

theorem pay_winners_nonneg (conn : String) (total totwin : Int) (ws : List Bet)
    (l : Ledger) (hl : ∀ p ∈ l, 0 ≤ p.2)
    (hw : ∀ b ∈ ws, 0 ≤ b.bet_amount) (ht : 0 ≤ total) (htw : 0 ≤ totwin) :
    ∀ p ∈ (pay_winners conn total totwin ws l).1, 0 ≤ p.2 := by
  induction ws generalizing l with
  | nil => exact hl
  | cons b rest ih =>
    have hpay : 0 ≤ floorF (fmul (ofInt total) (fdiv (ofInt b.bet_amount) (ofInt totwin))) := by
      have hd := fdiv_int_sign b.bet_amount totwin (hw b (List.mem_cons_self b rest)) htw
      have hm := fmul_sign (ofInt total) _ (by simpa [ofInt] using ht)
        (by simp [ofInt]) hd.1 (le_of_lt hd.2)
      exact floorF_nonneg _ hm.1 (le_of_lt hm.2)
    have hrest := ih _ (transfer_beans_nonneg conn b.creator _ l hl hpay)
      (fun b' h' => hw b' (List.mem_cons_of_mem _ h'))
    simp only [pay_winners]
    split_ifs with htr
    · exact hrest
    · exact hrest

theorem handle_trivia_win_nonneg (tid : Int) (wn conn : String) (l : Ledger)
    (bets : List Bet) (hl : ∀ p ∈ l, 0 ≤ p.2)
    (hb : ∀ b ∈ bets, 0 ≤ b.bet_amount) :
    ∀ p ∈ (handle_trivia_win tid wn conn l bets).2.1, 0 ≤ p.2 := by
  have hbs : ∀ b ∈ get_trivia_bets tid bets, 0 ≤ b.bet_amount :=
    fun b hb' => hb b (List.mem_of_mem_filter hb')
  have htotal : 0 ≤ ((get_trivia_bets tid bets).map Bet.bet_amount).sum := by
    apply List.sum_nonneg
    intro x hx
    rcases List.mem_map.mp hx with ⟨b, hb', rfl⟩
    exact hbs b hb'
  have hwsub : ∀ b ∈ (get_trivia_bets tid bets).filter (fun b => lc b.winner == lc wn),
      0 ≤ b.bet_amount := fun b hb' => hbs b (List.mem_of_mem_filter hb')
  have htw : 0 ≤ (((get_trivia_bets tid bets).filter
      (fun b => lc b.winner == lc wn)).map Bet.bet_amount).sum := by
    apply List.sum_nonneg
    intro x hx
    rcases List.mem_map.mp hx with ⟨b, hb', rfl⟩
    exact hwsub b hb'
  simp only [handle_trivia_win]
  split_ifs with h1 h2
  · exact hl
  · exact hl
  · exact pay_winners_nonneg _ _ _ _ _ hl hwsub htotal htw

theorem handle_trivia_win_bets_subset (tid : Int) (wn conn : String) (l : Ledger)
    (bets : List Bet) :
    ∀ b ∈ (handle_trivia_win tid wn conn l bets).2.2, b ∈ bets := by
  simp only [handle_trivia_win]
  split_ifs with h1 h2 <;> intro b hb' <;>
    first
      | exact hb'
      | exact List.mem_of_mem_filter hb'

theorem delete_trivia_ledger_nonneg (tid : Int) (conn : String) (l : Ledger)
    (bets : List Bet) (trivias : List Trivia) (hl : ∀ p ∈ l, 0 ≤ p.2)
    (hb : ∀ b ∈ bets, 0 ≤ b.bet_amount) :
    ∀ p ∈ (delete_trivia tid conn l bets trivias).2.1, 0 ≤ p.2 :=
  refund_bets_nonneg conn _ l hl (fun b hb' => hb b (List.mem_of_mem_filter hb'))

/-! ### The invariant is preserved by every command -/

theorem step_wf (conn : String) (valid : String → Bool) (s : St) (op : Op)
    (h : WellFormed s) : WellFormed (step conn valid s op) := by
  obtain ⟨hL, hB, hT⟩ := h
  cases op with
  | transferCmd nick target amount =>
    simp only [step]
    split_ifs with h1 h2 h3
    · exact ⟨hL, hB, hT⟩
    · exact ⟨hL, hB, hT⟩
    · exact ⟨hL, hB, hT⟩
    · exact ⟨transfer_beans_nonneg _ _ _ _ hL (by omega), hB, hT⟩
  | adminAdd target amount =>
    simp only [step]
    split_ifs with h1 h2
    · exact ⟨hL, hB, hT⟩
    · exact ⟨hL, hB, hT⟩
    · exact ⟨add_beans_nonneg _ _ _ hL (by omega), hB, hT⟩
  | slotsPlay nick bet now expd actd =>
    exact ⟨slots_ledger_nonneg _ _ _ _ _ _ _ _ hL, hB, hT⟩
  | triviaAdd nick prize question answer =>
    simp only [step]
    split_ifs with h1 h2 h3
    · exact ⟨hL, hB, hT⟩
    · exact ⟨hL, hB, hT⟩
    · exact ⟨hL, hB, hT⟩
    · refine ⟨transfer_beans_nonneg _ _ _ _ hL (by omega), hB, ?_⟩
      intro q' hq'
      rcases List.mem_append.mp hq' with hq' | hq'
      · exact hT q' hq'
      · simp only [List.mem_singleton] at hq'
        subst hq'
        simpa using by omega
  | triviaDelete nick tid =>
    rcases hfind : s.trivias.find? (fun q => q.id == tid) with _ | q <;>
      simp only [step, hfind]
    · exact ⟨hL, hB, hT⟩
    · have hq : q ∈ s.trivias := List.mem_of_find?_eq_some hfind
      have hqp : (0 : Int) ≤ q.prize := le_of_lt (hT q hq)
      split_ifs with h1 h2 h3 h4
      · exact ⟨hL, hB, hT⟩
      · exact ⟨hL, hB, hT⟩
      · exact ⟨hL, hB, hT⟩
      · have hl1 := transfer_beans_nonneg conn nick q.prize s.ledger hL hqp
        refine ⟨delete_trivia_ledger_nonneg _ _ _ _ s.trivias hl1
            (fun b hb' => le_of_lt (hB b hb')), ?_, ?_⟩
        · exact fun b hb' => hB b (List.mem_of_mem_filter hb')
        · exact fun q' hq' => hT q' (List.mem_of_mem_filter hq')
      · have hl1 := transfer_beans_nonneg conn nick q.prize s.ledger hL hqp
        have hl2 := delete_trivia_ledger_nonneg tid conn _ s.bets s.trivias hl1
          (fun b hb' => le_of_lt (hB b hb'))
        refine ⟨transfer_beans_nonneg _ _ _ _ hl2 hqp, ?_, ?_⟩
        · exact fun b hb' => hB b (List.mem_of_mem_filter hb')
        · exact fun q' hq' => hT q' (List.mem_of_mem_filter hq')
  | betPlace nick tid amount winner =>
    by_cases h1 : amount ≤ 0
    · simp only [step, if_pos h1]
      exact ⟨hL, hB, hT⟩
    · rcases hfind : s.trivias.find? (fun q => q.id == tid) with _ | q <;>
        simp only [step, if_neg h1, hfind]
      · exact ⟨hL, hB, hT⟩
      · split_ifs with h2 h3 h4 h5
        · exact ⟨hL, hB, hT⟩
        · exact ⟨hL, hB, hT⟩
        · exact ⟨hL, hB, hT⟩
        · exact ⟨hL, hB, hT⟩
        · refine ⟨transfer_beans_nonneg _ _ _ _ hL (by omega), ?_, hT⟩
          intro b hb'
          rcases List.mem_append.mp hb' with hb' | hb'
          · exact hB b hb'
          · simp only [List.mem_singleton] at hb'
            subst hb'
            simpa using by omega
  | resolve nick answer =>
    rcases hfind : s.trivias.find? (fun q => q.answer == lc answer) with _ | q <;>
      simp only [step, hfind]
    · exact ⟨hL, hB, hT⟩
    · split_ifs with h1
      · exact ⟨hL, hB, hT⟩
      · have hq : q ∈ s.trivias := List.mem_of_find?_eq_some hfind
        have hl1 := transfer_beans_nonneg conn nick q.prize s.ledger hL
          (le_of_lt (hT q hq))
        have hl2 := handle_trivia_win_nonneg q.id nick conn _ s.bets hl1
          (fun b hb' => le_of_lt (hB b hb'))
        refine ⟨delete_trivia_ledger_nonneg _ _ _ _ s.trivias hl2 ?_, ?_, ?_⟩
        · exact fun b hb' =>
            le_of_lt (hB b (handle_trivia_win_bets_subset _ _ _ _ _ b hb'))
        · exact fun b hb' =>
            hB b (handle_trivia_win_bets_subset _ _ _ _ _ b (List.mem_of_mem_filter hb'))
        · exact fun q' hq' => hT q' (List.mem_of_mem_filter hq')

theorem run_ops_wf (conn : String) (valid : String → Bool) (ops : List Op)
    (s : St) (h : WellFormed s) : WellFormed (run_ops conn valid ops s) := by
  induction ops generalizing s with
  | nil => exact h
  | cons op rest ih => exact ih _ (step_wf conn valid s op h)

/-- C9: starting from any well-formed state — every balance non-negative,
and (as every insertion path guarantees) every stored bet stake and trivia
prize positive — any sequence of command-surface operations (bean transfers,
admin mint, slots plays, trivia add/delete/resolve, bet placement and
payout) leaves every account balance, including absent accounts which read
as 0, non-negative. -/
theorem no_negative_balances (conn : String) (valid : String → Bool)
    (ops : List Op) (s : St) (h : WellFormed s) :
    ∀ n, 0 ≤ get_beans n (run_ops conn valid ops s).ledger := fun n =>
  get_beans_nonneg _ (run_ops_wf conn valid ops s h).1 n

theorem no_negative_balances_witness :
    0 ≤ get_beans "c"
      (run_ops "bot" (fun _ => true)
        [.transferCmd "a" "b" 5, .slotsPlay "a" 3 0 [0, 0, 0] [0, 0, 0],
          .triviaAdd "a" 10 "q" "ans", .betPlace "b" 0 4 "c",
          .resolve "c" "ans", .triviaDelete "a" 0]
        ⟨[("a", 50), ("b", 20), ("bot", 500)], [], [], [], 0⟩).ledger :=
  no_negative_balances "bot" (fun _ => true)
    [.transferCmd "a" "b" 5, .slotsPlay "a" 3 0 [0, 0, 0] [0, 0, 0],
      .triviaAdd "a" 10 "q" "ans", .betPlace "b" 0 4 "c",
      .resolve "c" "ans", .triviaDelete "a" 0]
    ⟨[("a", 50), ("b", 20), ("bot", 500)], [], [], [], 0⟩
    ⟨by decide, by decide, by decide⟩ "c"

end Beans
